import Mathlib

/-!
Verification development for the medicine-cost-analysis repository.

The Python sources are shallowly embedded as Lean functions:
  * `normalize_units` / `normalize` model the canonicalizers of
    `scripts/03_normalize_advanced.py` and `scripts/04_final_analysis.py`;
  * `mappingValue` / `full_normalize` model the unit-suffix resolver;
  * `extract_mrp_from_html` models the extraction chain of
    `scripts/fetch_cost_by_url.py` over a parsed-document model;
  * `crawl_match_type` / `crawl_match_type_bs4` model the tier assignment
    of the two crawler scripts;
  * `process_row` / `run_batch` model the row loop of
    `scripts/update_medicine_prices.py`.

Strings are modelled at the `List Char` level; ASCII semantics are assumed
for case folding, whitespace and digit tests (all corpus inputs are ASCII
apart from the rupee sign, which is handled explicitly).
-/

namespace MedCost

/-- Python whitespace for `str.strip()` and the regex class `\s` (ASCII). -/
def isPySpace (c : Char) : Bool :=
  c = ' ' || c = '\t' || c = '\n' || c = '\r' || c = '\x0b' || c = '\x0c'

/-- ASCII word character, the regex class `\w` used by the boundary `\b`. -/
def isWordChar (c : Char) : Bool :=
  c.isAlpha || c.isDigit || c = '_'

/-- `str.lower()` (ASCII). -/
def lowerL (cs : List Char) : List Char := cs.map Char.toLower

/-- Strip characters satisfying `p` from the end of a list. -/
def stripEnd (p : Char → Bool) (cs : List Char) : List Char :=
  ((cs.reverse).dropWhile p).reverse

/-- Strip characters satisfying `p` from both ends (`str.strip(chars)`). -/
def stripBoth (p : Char → Bool) (cs : List Char) : List Char :=
  stripEnd p (cs.dropWhile p)

/-- `str.strip()` with no argument: strip whitespace from both ends. -/
def stripWS (cs : List Char) : List Char := stripBoth isPySpace cs

/-- `re.sub(r'\s+', ' ', s)`: replace every maximal whitespace run by one space. -/
def collapseWS : List Char → List Char
  | [] => []
  | c :: rest =>
    if isPySpace c then
      match rest with
      | [] => [' ']
      | d :: _ => if isPySpace d then collapseWS rest else ' ' :: collapseWS rest
    else c :: collapseWS rest

/-- The alternation of `re.sub(r'\s*(mg|mcg|ml|gm|iu|g)\b', r'\1', s)`,
in the engine's left-to-right order. -/
def unitAlts : List (List Char) :=
  [['m','g'], ['m','c','g'], ['m','l'], ['g','m'], ['i','u'], ['g']]

/-- The word boundary `\b` placed after a letter: the next character must not
be a word character (or the input must end). -/
def boundaryAfter : List Char → Bool
  | [] => true
  | c :: _ => !(isWordChar c)

/-- Try one alternative of the unit alternation as a prefix of `cs`, requiring
a word boundary after it. Returns the consumed alternative and the remainder. -/
def tryAlt (alt : List Char) (cs : List Char) : Option (List Char × List Char) :=
  if alt.isPrefixOf cs && boundaryAfter (cs.drop alt.length) then
    some (alt, cs.drop alt.length)
  else
    none

/-- Try a list of alternatives in order; first hit wins (regex alternation). -/
def matchAltAux : List (List Char) → List Char → Option (List Char × List Char)
  | [], _ => none
  | alt :: alts, cs =>
    match tryAlt alt cs with
    | some res => some res
    | none => matchAltAux alts cs

/-- Try the unit alternatives in the regex's order. -/
def matchAlt (cs : List Char) : Option (List Char × List Char) :=
  matchAltAux unitAlts cs

theorem tryAlt_some {alt cs a r} (h : tryAlt alt cs = some (a, r)) :
    a = alt ∧ r = cs.drop alt.length ∧ alt.isPrefixOf cs = true := by
  unfold tryAlt at h
  split at h
  · rename_i hc
    simp only [Bool.and_eq_true] at hc
    injection h with h1
    injection h1 with ha hr
    exact ⟨ha.symm, hr.symm, hc.1⟩
  · exact absurd h (by simp)

theorem matchAltAux_some {cs a r} :
    ∀ alts : List (List Char), (∀ alt ∈ alts, alt ≠ []) →
    matchAltAux alts cs = some (a, r) →
    1 ≤ a.length ∧ a.length + r.length = cs.length := by
  intro alts
  induction alts with
  | nil => intro _ h; exact absurd h (by simp [matchAltAux])
  | cons alt alts ih =>
    intro hne h
    unfold matchAltAux at h
    cases hcase : tryAlt alt cs with
    | some res =>
      rw [hcase] at h
      injection h with h
      subst h
      obtain ⟨ha, hr, hpre⟩ := tryAlt_some hcase
      have hlen : alt.length ≤ cs.length :=
        (List.isPrefixOf_iff_prefix.mp hpre).length_le
      have halt : alt ≠ [] := hne alt (by simp)
      have haltlen : 1 ≤ alt.length := by
        cases alt with
        | nil => exact absurd rfl halt
        | cons x xs => exact Nat.succ_le_succ (Nat.zero_le _)
      constructor
      · rw [ha]; exact haltlen
      · rw [ha, hr]
        simp only [List.length_drop]
        omega
    | none =>
      rw [hcase] at h
      exact ih (fun a ha => hne a (by simp [ha])) h

theorem matchAlt_some {cs a r} (h : matchAlt cs = some (a, r)) :
    1 ≤ a.length ∧ a.length + r.length = cs.length := by
  refine matchAltAux_some unitAlts ?_ h
  intro alt halt
  fin_cases halt <;> simp

/-- The substitution pass of `re.sub(r'\s*(mg|mcg|ml|gm|iu|g)\b', r'\1', s)`.
At each position the engine greedily consumes the whitespace run, then tries
the alternation; shrinking `\s*` can never help, because every alternative
starts with a letter while any shorter consumption leaves a whitespace
character at the front.  On a match the unit (group 1) is emitted and the
scan resumes after the match; otherwise one character is emitted verbatim. -/
def unitSubGo : Nat → List Char → List Char
  | _, [] => []
  | 0, cs => cs
  | fuel + 1, c :: rest =>
    match matchAlt ((c :: rest).drop ((c :: rest).takeWhile isPySpace).length) with
    | some ar => ar.1 ++ unitSubGo fuel ar.2
    | none => c :: unitSubGo fuel rest

/-- The scan itself.  Every step consumes at least one character
(`matchAlt_some`), so `cs.length` steps of fuel always complete the scan;
the fuel makes the recursion structural. -/
def unitSub (cs : List Char) : List Char := unitSubGo cs.length cs


/-- The canonicalizer `normalize_units` of `scripts/03_normalize_advanced.py`:
`strip`, `lower`, collapse whitespace, unit re-spacing, final `strip`. -/
def normalize_units (s : String) : String :=
  ⟨stripWS (unitSub (collapseWS (lowerL (stripWS s.data))))⟩

/-- The backtick character (written by code point to honour lexical limits). -/
def backtickChar : Char := Char.ofNat 96

/-- The canonicalizer `normalize` of `scripts/04_final_analysis.py`:
`strip`, `lower`, collapse whitespace, strip backticks, strip periods,
unit re-spacing, final `strip`. -/
def normalize (s : String) : String :=
  ⟨stripWS (unitSub (stripBoth (· = '.') (stripBoth (· = backtickChar)
      (collapseWS (lowerL (stripWS s.data))))))⟩


/-! ## Unit-suffix resolver
`scripts/03_normalize_advanced.py` lines 18-31 and
`scripts/04_final_analysis.py` lines 22-31. -/

/-- The resolver's unit priority list `UNITS = ['mg', 'ml', 'mcg', 'gm', 'iu']`. -/
def UNITS : List String := ["mg", "ml", "mcg", "gm", "iu"]

/-- `re.match(r'^(.*\d)$', s)` viewed as a Boolean: `.` does not cross a
newline and `$` also matches just before one trailing newline, so the
pattern holds exactly when `s` (or `s` less one trailing newline) is
nonempty, newline-free and ends in a digit. -/
def bareEnd (cs : List Char) : Bool :=
  match cs.reverse with
  | [] => false
  | c :: _ => c.isDigit && !(cs.contains '\n')

/-- Full `bare.match` semantics, including the trailing-newline case of `$`. -/
def bareMatch (s : String) : Bool :=
  bareEnd s.data ||
    (match s.data.reverse with
     | c :: rest => c = '\n' && bareEnd rest.reverse
     | [] => false)

/-- The `for unit in UNITS: if med + unit in norm_set: matched = unit; break`
loop body of `scripts/03_normalize_advanced.py`. -/
def findUnit (med : String) (normSet : List String) : List String → Option String
  | [] => none
  | u :: us => if normSet.contains (med ++ u) then some u else findUnit med normSet us

/-- The value `mapping[med]` computed by the resolver loop of
`scripts/03_normalize_advanced.py` (reference set modelled as a list). -/
def mappingValue (med : String) (normSet : List String) : String :=
  if bareMatch med then
    match findUnit med normSet UNITS with
    | some u => med ++ u
    | none => med
  else med

/-- `full_normalize` of `scripts/04_final_analysis.py`: canonicalize, then
resolve a bare-digit suffix against the reference set `all_raw`. -/
def full_normalize (name : String) (all_raw : List String) : String :=
  let n := normalize name
  if bareMatch n then
    match findUnit n all_raw UNITS with
    | some u => n ++ u
    | none => n
  else n


/-! ## Match classifier
The tier assignment inside `crawl_medicines` of `scripts/tata1mg_crawler.py`
(lines 135-152) and `scripts/tata1mg_crawler_bs4.py` (lines 145-161).
The `SequenceMatcher` similarity ratio is a real number in `[0,1]`; it is
modelled as a rational so the threshold comparisons are exact. -/

/-- Python truthiness of an optional string (`None` and `""` are falsy). -/
def strTruthy : Option String → Bool
  | none => false
  | some s => s ≠ ""

/-- Python truthiness of an optional price (`None` and `0.0` are falsy). -/
def priceTruthy : Option ℚ → Bool
  | none => false
  | some q => q ≠ 0

/-- The `match_type` written by `scripts/tata1mg_crawler.py`: requires both a
truthy product name and a truthy price, then buckets the score; a poor score
falls into the same `'not_found'` label as a missing candidate. -/
def crawl_match_type (product_name : Option String) (mrp : Option ℚ) (score : ℚ) :
    String :=
  if strTruthy product_name && priceTruthy mrp then
    if score ≥ 9/10 then "exact"
    else if score ≥ 6/10 then "close"
    else "not_found"
  else "not_found"

/-- The `match_type` written by `scripts/tata1mg_crawler_bs4.py`: identical
except that a poor score receives the distinct label `'low_match'`. -/
def crawl_match_type_bs4 (product_name : Option String) (mrp : Option ℚ) (score : ℚ) :
    String :=
  if strTruthy product_name && priceTruthy mrp then
    if score ≥ 9/10 then "exact"
    else if score ≥ 6/10 then "close"
    else "low_match"
  else "not_found"

/-! ## Fetch-update orchestrator
The row loop of `main` in `scripts/update_medicine_prices.py` (lines 98-163).
Cell values are modelled as `Option String` (`none` is an empty cell); the
numeric value written on success is modelled by its validated source string.
The subprocess call is modelled by an oracle stored in the row: what the
fetcher would produce if invoked. -/

/-- Outcome of `subprocess.run` on the fetcher script, as seen by the loop. -/
inductive FetchOutcome where
  | output (stdout stderr : String)
  | timeout
  | err (msg : String)
deriving Repr, DecidableEq

/-- One sheet row: the `#`, name, URL and price cells, plus the fetch oracle. -/
structure XRow where
  num : Option String
  name : Option String
  url : Option String
  price : Option String
  fetch : FetchOutcome
deriving Repr, DecidableEq

/-- Row status as logged by the loop. -/
inductive RowStatus where
  | skip_no_url
  | already_filled
  | fetched_ok
  | fetch_failed
  | fetch_timeout
  | fetch_error
deriving Repr, DecidableEq

/-- The result of processing one row. -/
structure RowResult where
  row : XRow
  status : RowStatus
  fetchInvoked : Bool
  saved : Bool
  failure : Option String
deriving Repr, DecidableEq

/-- `str.strip()` on a `String`. -/
def pyStrip (s : String) : String := ⟨stripWS s.data⟩

/-- `mrp_raw.replace(".", "", 1)`: remove the first period, if any. -/
def removeFirstDot : List Char → List Char
  | [] => []
  | c :: r => if c = '.' then r else c :: removeFirstDot r

/-- `str.isdigit()` (ASCII): nonempty and all digits. -/
def pyIsdigit (cs : List Char) : Bool :=
  !cs.isEmpty && cs.all Char.isDigit

/-- The validity test `mrp_raw and mrp_raw.replace(".", "", 1).isdigit()`. -/
def validPrice (s : String) : Bool :=
  s ≠ "" && pyIsdigit (removeFirstDot s.data)

/-- `url = str(url_cell.value).strip() if url_cell.value else ""`. -/
def effectiveUrl (r : XRow) : String :=
  match r.url with
  | some s => if s ≠ "" then pyStrip s else ""
  | none => ""

/-- The body of the row loop for one row that has a `#` value:
skip when the URL is empty, skip when the price cell is already filled,
otherwise consult the fetcher and either write-and-save a validated price
or record the failure and leave the row untouched. -/
def process_row (r : XRow) : RowResult :=
  if effectiveUrl r = "" then
    ⟨r, .skip_no_url, false, false, none⟩
  else if !(r.price = none || r.price = some "") then
    ⟨r, .already_filled, false, false, none⟩
  else
    match r.fetch with
    | .output stdout stderr =>
      let mrp_raw := pyStrip stdout
      if validPrice mrp_raw then
        ⟨{ r with price := some mrp_raw }, .fetched_ok, true, true, none⟩
      else
        let errMsg :=
          if mrp_raw ≠ "" then mrp_raw
          else if pyStrip stderr ≠ "" then pyStrip stderr
          else "No output"
        ⟨r, .fetch_failed, true, false, some errMsg⟩
    | .timeout => ⟨r, .fetch_timeout, true, false, some "Timeout after 30s"⟩
    | .err m => ⟨r, .fetch_error, true, false, some m⟩

/-- The whole row loop: rows are processed in order until the first row whose
`#` cell is empty, which breaks out of the loop; no exception escapes a row. -/
def run_batch : List XRow → List RowResult
  | [] => []
  | r :: rs => if r.num = none then [] else process_row r :: run_batch rs


/-! ## Extraction chain
`extract_mrp_from_html` of `scripts/fetch_cost_by_url.py` (lines 57-125).
JSON values already parsed by `json.loads` are modelled by `PyVal`
(numbers restricted to integers; floating-point payloads are outside the
embedding).  A script tag's body is modelled by the outcome of `json.loads`
on its `.string`: absent (`None`), unparsable, or a parsed value. -/

/-- A Python value as produced by `json.loads`. -/
inductive PyVal where
  | null
  | bool (b : Bool)
  | int (n : Int)
  | str (s : String)
  | list (items : List PyVal)
  | dict (entries : List (String × PyVal))
deriving Repr, Inhabited

/-- Python truthiness. -/
def pyTruthy : PyVal → Bool
  | .null => false
  | .bool b => b
  | .int n => n ≠ 0
  | .str s => s ≠ ""
  | .list items => !items.isEmpty
  | .dict entries => !entries.isEmpty

/-- First value stored under `key` (`key in d` / `d[key]`). -/
def pyLookup (key : String) : List (String × PyVal) → Option PyVal
  | [] => none
  | (k, v) :: rest => if k = key then some v else pyLookup key rest

mutual

/-- `find_key` of `scripts/fetch_cost_by_url.py`: recursively search nested
dicts/lists for `key`, depth-first, dict entry before deeper values.  A stored
Python `None` is returned as `none`: for every caller (`result is not None`,
`or`, `if mrp:`) it is indistinguishable from an absent key, and like Python
it still ends the search of that dict. -/
def find_key (key : String) : PyVal → Option PyVal
  | .dict entries =>
    match pyLookup key entries with
    | some .null => none
    | some v => some v
    | none => findKeyVals key entries
  | .list items => findKeyItems key items
  | _ => none

/-- The `for v in d.values()` loop of `find_key`. -/
def findKeyVals (key : String) : List (String × PyVal) → Option PyVal
  | [] => none
  | (_, v) :: rest =>
    match find_key key v with
    | some r => some r
    | none => findKeyVals key rest

/-- The `for item in d` loop of `find_key`. -/
def findKeyItems (key : String) : List PyVal → Option PyVal
  | [] => none
  | v :: rest =>
    match find_key key v with
    | some r => some r
    | none => findKeyItems key rest

end

mutual

/-- Python `str()` of a parsed JSON value (container elements via `repr`;
string escaping inside `repr` is not modelled). -/
def pyStr : PyVal → String
  | .null => "None"
  | .bool true => "True"
  | .bool false => "False"
  | .int n => toString n
  | .str s => s
  | .list items => "[" ++ pyReprJoin items ++ "]"
  | .dict entries => "\x7b" ++ pyReprEntries entries ++ "\x7d"

/-- Python `repr()` of a parsed JSON value. -/
def pyRepr : PyVal → String
  | .null => "None"
  | .bool true => "True"
  | .bool false => "False"
  | .int n => toString n
  | .str s => "\x27" ++ s ++ "\x27"
  | .list items => "[" ++ pyReprJoin items ++ "]"
  | .dict entries => "\x7b" ++ pyReprEntries entries ++ "\x7d"

/-- Comma-join of element `repr`s. -/
def pyReprJoin : List PyVal → String
  | [] => ""
  | [v] => pyRepr v
  | v :: rest => pyRepr v ++ ", " ++ pyReprJoin rest

/-- Comma-join of `'key': repr(value)` pairs. -/
def pyReprEntries : List (String × PyVal) → String
  | [] => ""
  | [(k, v)] => "\x27" ++ k ++ "\x27: " ++ pyRepr v
  | (k, v) :: rest => "\x27" ++ k ++ "\x27: " ++ pyRepr v ++ ", " ++ pyReprEntries rest

end


/-- Outcome of `json.loads(tag.string)` for one script tag. -/
inductive ScriptBody where
  | absent
  | invalid
  | value (v : PyVal)
deriving Repr, Inhabited

/-- A `<script>` tag: its `id` and `type` attributes and its body. -/
structure Script where
  idAttr : Option String
  typeAttr : Option String
  body : ScriptBody
deriving Repr, Inhabited

/-- A document element as consulted by strategy 3: its class tokens, its
`itemprop` attribute, and its `get_text(strip=True)` text. -/
structure Elem where
  classes : List String
  itemprop : Option String
  text : String
deriving Repr, Inhabited

/-- A parsed document: script tags in document order, candidate price
elements in document order, and the full visible text (`soup.get_text()`). -/
structure Doc where
  scripts : List Script
  elems : List Elem
  fullText : String
deriving Repr, Inhabited

/-- The only exception class `extract_mrp_from_html` can leak: the
`TypeError` raised by `json.loads(None)` when a located script tag has no
string body (`except` only catches `JSONDecodeError` and `AttributeError`). -/
inductive PyErr where
  | typeError
deriving Repr, DecidableEq

/-! ### Numeric token regex
The captured group `(\d[\d,]*(?:\.\d{1,2})?)` with the negative lookahead
`(?!\d|%)`, shared by strategies 3, 4 and 5. -/

/-- The negative lookahead `(?!\d|%)`: fails when the next character is a
digit or a percent sign. -/
def lookaheadOK : List Char → Bool
  | [] => true
  | c :: _ => !(c.isDigit || c = '%')

/-- Try the optional fraction `(?:\.\d{1,2})?` at `rest` (two digits first,
then one, then none — the engine's greedy order), then the lookahead.
Returns the full capture on success. -/
def tryFrac (cap : List Char) (rest : List Char) : Option (List Char) :=
  match rest with
  | '.' :: d1 :: d2 :: r2 =>
    if d1.isDigit && d2.isDigit && lookaheadOK r2 then some (cap ++ ['.', d1, d2])
    else if d1.isDigit && lookaheadOK (d2 :: r2) then some (cap ++ ['.', d1])
    else if lookaheadOK rest then some cap
    else none
  | '.' :: d1 :: [] =>
    if d1.isDigit then some (cap ++ ['.', d1])
    else if lookaheadOK rest then some cap
    else none
  | _ => if lookaheadOK rest then some cap else none

/-- Backtrack over the greedy `[\d,]*` run: try keeping the first `k`
characters of the run (longest first), and for each split try the fraction
alternatives.  `run` is the maximal `[\d,]*` run after the leading digit and
`after` the text following it. -/
def goSplit (d : Char) (run after : List Char) : Nat → Option (List Char)
  | 0 => tryFrac [d] (run ++ after)
  | k + 1 =>
    match tryFrac (d :: run.take (k + 1)) (run.drop (k + 1) ++ after) with
    | some cap => some cap
    | none => goSplit d run after k

/-- Match `\d[\d,]*(?:\.\d{1,2})?(?!\d|%)` at the current position, returning
the captured token. -/
def numCore : List Char → Option (List Char)
  | [] => none
  | c :: rest =>
    if c.isDigit then
      let run := rest.takeWhile (fun d => d.isDigit || d = ',')
      goSplit c run (rest.drop run.length) run.length
    else none

/-- Drop one optional rupee sign (`[₹₹]?` — both class members are the
same character U+20B9). -/
def dropRupee : List Char → List Char
  | '₹' :: t => t
  | cs => cs

/-- A match attempt of `[₹₹]?\s*(num)(?!\d|%)` at one position: consume
an optional rupee sign, then the whitespace run greedily, then the token.
Partial consumption of `\s*` never succeeds (the next character would be
whitespace, not a digit), so only the greedy path is modelled. -/
def numTokenAtPos (cs : List Char) : Option (List Char) :=
  numCore ((dropRupee cs).dropWhile isPySpace)

/-- `re.search` scan for strategy 3: leftmost position whose attempt wins. -/
def searchNumToken : List Char → Option (List Char)
  | [] => none
  | c :: rest =>
    match numTokenAtPos (c :: rest) with
    | some cap => some cap
    | none => searchNumToken rest

/-- `.replace(",", "")` applied to a captured token. -/
def stripCommas (cs : List Char) : String := ⟨cs.filter (· ≠ ',')⟩


/-! ### Strategy 1: `__NEXT_DATA__` -/

/-- `v.get(key, {})` — defined only when `v` is a dict; `none` models the
`AttributeError` that the strategy handler catches. -/
def pyGetDefaultDict (v : PyVal) (key : String) : Option PyVal :=
  match v with
  | .dict entries => some ((pyLookup key entries).getD (.dict []))
  | _ => none

/-- `find_key(page_props, "mrp") or find_key(page_props, "MRP")`. -/
def findMrpKey (pageProps : PyVal) : Option PyVal :=
  match find_key "mrp" pageProps with
  | some v => if pyTruthy v then some v else find_key "MRP" pageProps
  | none => find_key "MRP" pageProps

/-- Strategy 1: parse the first `<script id="__NEXT_DATA__">` and search
`props.pageProps` for an `mrp`/`MRP` key.  An absent body raises the
uncaught `TypeError` of `json.loads(None)`; a parse failure or a missing /
falsy value falls through. -/
def strat1 (scripts : List Script) : Except PyErr (Option String) :=
  match scripts.find? (fun sc => sc.idAttr = some "__NEXT_DATA__") with
  | none => .ok none
  | some sc =>
    match sc.body with
    | .absent => .error .typeError
    | .invalid => .ok none
    | .value data =>
      match pyGetDefaultDict data "props" with
      | none => .ok none
      | some props =>
        match pyGetDefaultDict props "pageProps" with
        | none => .ok none
        | some pageProps =>
          match findMrpKey pageProps with
          | some v => if pyTruthy v then .ok (some (pyStr v)) else .ok none
          | none => .ok none

/-! ### Strategy 2: JSON-LD -/

/-- `d.get(key)` with default `None` (a stored `None` is the same). -/
def pyGet (entries : List (String × PyVal)) (key : String) : Option PyVal :=
  match pyLookup key entries with
  | some .null => none
  | some v => some v
  | none => none

/-- `offers.get("highPrice") or offers.get("price")`. -/
def offersGet (entries : List (String × PyVal)) : Option PyVal :=
  match pyGet entries "highPrice" with
  | some v => if pyTruthy v then some v else pyGet entries "price"
  | none => pyGet entries "price"

/-- The `offers` handling of one JSON-LD item: a dict is read directly, a
nonempty list is read through its first element (whose `.get` raises
`AttributeError` when it is not a dict), anything else produces nothing. -/
def offersPrice : PyVal → Except Unit (Option PyVal)
  | .dict entries => .ok (offersGet entries)
  | .list (first :: _) =>
    match first with
    | .dict entries => .ok (offersGet entries)
    | _ => .error ()
  | _ => .ok none

/-- The `for item in items` loop of strategy 2; an `AttributeError` aborts
the whole loop (the handler then moves to the next script). -/
def itemsLoop : List PyVal → Except Unit (Option String)
  | [] => .ok none
  | item :: rest =>
    match item with
    | .dict entries =>
      let offers := (pyLookup "offers" entries).getD (.dict [])
      match offersPrice offers with
      | .error e => .error e
      | .ok (some p) => if pyTruthy p then .ok (some (pyStr p)) else itemsLoop rest
      | .ok none => itemsLoop rest
    | _ => itemsLoop rest

/-- Strategy 2: scan every `<script type="application/ld+json">` in order.
An absent body raises the uncaught `TypeError`; unparsable bodies and
`AttributeError`s continue with the next script. -/
def strat2 : List Script → Except PyErr (Option String)
  | [] => .ok none
  | sc :: rest =>
    if sc.typeAttr = some "application/ld+json" then
      match sc.body with
      | .absent => .error .typeError
      | .invalid => strat2 rest
      | .value data =>
        match itemsLoop (match data with | .list xs => xs | other => [other]) with
        | .error _ => strat2 rest
        | .ok (some s) => .ok (some s)
        | .ok none => strat2 rest
    else strat2 rest

/-! ### Strategy 3: marked price elements -/

/-- Contiguous-substring test. -/
def isSubListOf (p : List Char) : List Char → Bool
  | [] => p.isEmpty
  | c :: t => p.isPrefixOf (c :: t) || isSubListOf p t

/-- `re.search(pat, hay)` for a literal pattern under `re.I`: a
case-insensitive substring test. -/
def ciContains (hay pat : String) : Bool :=
  isSubListOf (lowerL pat.data) (lowerL hay.data)

/-- One selector of strategy 3: a class regex or an exact `itemprop`. -/
inductive Selector where
  | classPat (pat : String)
  | itempropEq (v : String)

/-- The selector list, in the source's order. -/
def selectors : List Selector :=
  [.classPat "price-tag", .classPat "DrugHeader__price",
   .classPat "ProductCard__price", .classPat "style__price-tag",
   .classPat "PriceBox", .itempropEq "price"]

/-- Element matching: a class pattern must match one of the element's class
tokens (the patterns are literal and space-free, so matching the joined
class string is equivalent); `itemprop` is an exact comparison. -/
def elemMatches : Selector → Elem → Bool
  | .classPat pat, e => e.classes.any (fun c => ciContains c pat)
  | .itempropEq v, e => e.itemprop = some v

/-- Strategy 3: for each selector in order, find the first matching element;
if its text holds a numeric token, return it (commas stripped), else try the
next selector. -/
def strat3 : List Selector → List Elem → Option String
  | [], _ => none
  | sel :: sels, elems =>
    match elems.find? (elemMatches sel) with
    | some e =>
      match searchNumToken e.text.data with
      | some cap => some (stripCommas cap)
      | none => strat3 sels elems
    | none => strat3 sels elems

/-! ### Strategies 4 and 5: text scans -/

/-- Case-insensitive literal prefix match, returning the remainder. -/
def matchCI : List Char → List Char → Option (List Char)
  | [], cs => some cs
  | _ :: _, [] => none
  | p :: ps, c :: cs => if c.toLower = p.toLower then matchCI ps cs else none

/-- One attempt of `MRP\s*[:\-]?\s*[₹₹]?\s*(num)(?!\d|%)` (case-insensitive).
All optional pieces range over disjoint character classes, so the greedy
path is the only viable one. -/
def mrpTokenAt (cs : List Char) : Option (List Char) :=
  match matchCI ['m','r','p'] cs with
  | none => none
  | some r1 =>
    let r2 := r1.dropWhile isPySpace
    let r3 := match r2 with
      | ':' :: t => t
      | '-' :: t => t
      | _ => r2
    numCore (((dropRupee (r3.dropWhile isPySpace))).dropWhile isPySpace)

/-- `re.search` scan for strategy 4. -/
def searchMrpToken : List Char → Option (List Char)
  | [] => none
  | c :: rest =>
    match mrpTokenAt (c :: rest) with
    | some cap => some cap
    | none => searchMrpToken rest

/-- One attempt of `[₹₹]\s*(num)(?!\d|%)`: here the rupee sign is required. -/
def rupeeTokenAt : List Char → Option (List Char)
  | '₹' :: t => numCore (t.dropWhile isPySpace)
  | _ => none

/-- `re.findall(...)[0]` for strategy 5: the leftmost match's capture. -/
def searchRupeeToken : List Char → Option (List Char)
  | [] => none
  | c :: rest =>
    match rupeeTokenAt (c :: rest) with
    | some cap => some cap
    | none => searchRupeeToken rest

/-- Strategy 4 on the full text. -/
def strat4 (fullText : String) : Option String :=
  (searchMrpToken fullText.data).map stripCommas

/-- Strategy 5 on the full text. -/
def strat5 (fullText : String) : Option String :=
  (searchRupeeToken fullText.data).map stripCommas

/-- `extract_mrp_from_html`: the ordered extraction chain.  Each strategy is
attempted only when every earlier one produced nothing; the `TypeError` of
strategies 1 and 2 propagates. -/
def extract_mrp_from_html (d : Doc) : Except PyErr (Option String) :=
  match strat1 d.scripts with
  | .error e => .error e
  | .ok (some r) => .ok (some r)
  | .ok none =>
    match strat2 d.scripts with
    | .error e => .error e
    | .ok (some r) => .ok (some r)
    | .ok none =>
      match strat3 selectors d.elems with
      | some r => .ok (some r)
      | none =>
        match strat4 d.fullText with
        | some r => .ok (some r)
        | none =>
          match strat5 d.fullText with
          | some r => .ok (some r)
          | none => .ok none


/-! ## Claim theorems -/

/-- C1: whenever the `__NEXT_DATA__` structured payload yields a price value,
`extract_mrp_from_html` returns exactly that value, and the result does not
depend on what the lower-priority strategies (JSON-LD is read from the same
script list, marked price elements, text scans) would find: the same value is
returned for any choice of price elements and visible text. -/
theorem extract_structured_payload_wins
    (scripts : List Script) (elems elems2 : List Elem) (t t2 : String)
    (v : String) (h : strat1 scripts = .ok (some v)) :
    extract_mrp_from_html ⟨scripts, elems, t⟩ = .ok (some v) ∧
    extract_mrp_from_html ⟨scripts, elems2, t2⟩ = .ok (some v) := by
  constructor <;> (unfold extract_mrp_from_html; rw [h])

/-- Witness for C1: a document whose structured payload carries `mrp = 100`
while a marked price element shows `₹149.02` (and, in the second document,
the visible text shows `MRP ₹149.02`); the payload value `"100"` is
returned, not `"149.02"`. -/
theorem extract_structured_payload_wins_witness :
    extract_mrp_from_html
      ⟨[⟨some "__NEXT_DATA__", none,
          .value (.dict [("props", .dict [("pageProps",
            .dict [("product", .dict [("mrp", .int 100)])])])])⟩],
       [⟨["style__price-tag"], none, "₹149.02"⟩], ""⟩ = .ok (some "100") ∧
    extract_mrp_from_html
      ⟨[⟨some "__NEXT_DATA__", none,
          .value (.dict [("props", .dict [("pageProps",
            .dict [("product", .dict [("mrp", .int 100)])])])])⟩],
       [], "MRP ₹149.02"⟩ = .ok (some "100") ∧
    ("100" : String) ≠ "149.02" := by
  have h := extract_structured_payload_wins
    [⟨some "__NEXT_DATA__", none,
        .value (.dict [("props", .dict [("pageProps",
          .dict [("product", .dict [("mrp", .int 100)])])])])⟩]
    [⟨["style__price-tag"], none, "₹149.02"⟩] [] "" "MRP ₹149.02" "100" rfl
  exact ⟨h.1, h.2, by decide⟩

/-- C4: the extraction chain is not total.  A document whose
`<script id="__NEXT_DATA__">` tag has no string body makes
`json.loads(None)` raise `TypeError`, which the strategy's
`except (json.JSONDecodeError, AttributeError)` does not catch, so the
function raises instead of returning null; a document with no price signal
at all does return null. -/
theorem extract_raises_on_empty_script :
    extract_mrp_from_html ⟨[⟨some "__NEXT_DATA__", none, .absent⟩], [], ""⟩
      = .error .typeError ∧
    extract_mrp_from_html ⟨[⟨none, some "application/ld+json", .absent⟩], [], ""⟩
      = .error .typeError ∧
    extract_mrp_from_html ⟨[], [], "no price signal of any kind"⟩ = .ok none :=
  ⟨rfl, rfl, rfl⟩

/-- C9: on the visible text `"Save 20% more, MRP ₹149.02"` the chain returns
`"149.02"` — not the percentage `"20"` and no token extended by adjacent
digits — because a numeric token immediately followed by a digit or a
percent sign is excluded by the lookahead. -/
theorem extract_mrp_scan_149_02 :
    extract_mrp_from_html ⟨[], [], "Save 20% more, MRP ₹149.02"⟩
      = .ok (some "149.02") := rfl


/-- C2 counterexample: in `scripts/tata1mg_crawler.py` a returned candidate
with a poor similarity score (here `1/2 < 0.60`) is labelled `'not_found'` —
the same label as the no-candidate case and not a `'low'` tier — so
`'not_found'` is not reserved for the no-candidate case as claimed. -/
theorem crawl_match_type_low_score_counterexample :
    crawl_match_type (some "Crocin 650") (some 10) (1/2) = "not_found" ∧
    ("not_found" : String) ≠ "low" := by
  constructor
  · show (if _ then _ else _) = _
    norm_num [crawl_match_type, strTruthy, priceTruthy]
  · decide

/-- C2 amended: with a truthy candidate name and price, both crawlers assign
`'exact'` iff score ≥ 0.90 and `'close'` iff 0.60 ≤ score < 0.90; for
score < 0.60 `scripts/tata1mg_crawler.py` assigns `'not_found'` (merging the
poor-score case with the no-candidate case) while
`scripts/tata1mg_crawler_bs4.py` assigns the distinct `'low_match'`; with no
candidate both assign `'not_found'`. -/
theorem crawl_match_type_tiers (name : Option String) (mrp : Option ℚ) (s : ℚ)
    (hname : strTruthy name = true) (hmrp : priceTruthy mrp = true) :
    (crawl_match_type name mrp s = "exact" ↔ 9/10 ≤ s) ∧
    (crawl_match_type name mrp s = "close" ↔ 6/10 ≤ s ∧ s < 9/10) ∧
    (crawl_match_type name mrp s = "not_found" ↔ s < 6/10) ∧
    (crawl_match_type_bs4 name mrp s = "exact" ↔ 9/10 ≤ s) ∧
    (crawl_match_type_bs4 name mrp s = "close" ↔ 6/10 ≤ s ∧ s < 9/10) ∧
    (crawl_match_type_bs4 name mrp s = "low_match" ↔ s < 6/10) ∧
    crawl_match_type_bs4 name mrp s ≠ "not_found" ∧
    (∀ mrp2 : Option ℚ, ∀ s2 : ℚ, crawl_match_type none mrp2 s2 = "not_found"
      ∧ crawl_match_type_bs4 none mrp2 s2 = "not_found") := by
  unfold crawl_match_type crawl_match_type_bs4
  rw [hname, hmrp]
  simp only [Bool.and_self, if_true]
  rcases le_or_lt (9/10 : ℚ) s with h9 | h9 <;>
    rcases le_or_lt (6/10 : ℚ) s with h6 | h6 <;>
    refine ⟨?_, ?_, ?_, ?_, ?_, ?_, ?_, fun mrp2 s2 => ⟨rfl, rfl⟩⟩ <;>
    simp [h9, h6, not_le.mpr, le_of_lt] <;>
    first
      | (intro h; exact absurd h (by decide))
      | omega
      | (constructor <;> intro h <;> [skip; skip] <;> omega)
      | linarith

/-- Witness for C2 amended: a candidate scoring `0.7` is `'close'` in both
crawlers. -/
theorem crawl_match_type_tiers_witness :
    strTruthy (some "Dolo 650 Tablet") = true ∧
    priceTruthy (some 33) = true ∧
    crawl_match_type (some "Dolo 650 Tablet") (some 33) (7/10) = "close" :=
  ⟨by decide, by decide,
   ((crawl_match_type_tiers (some "Dolo 650 Tablet") (some 33) (7/10)
      (by decide) (by decide)).2.1).mpr (by norm_num)⟩


/-- C7: a row whose price cell is already non-empty, or whose URL cell is
empty, is never fetched (the fetcher oracle is not consulted), all its cells
are left unchanged, and no save is triggered; hence re-running a batch over a
partially priced sheet reproduces already-priced rows unchanged. -/
theorem process_row_skips_priced_and_urlless (r : XRow)
    (h : ¬(r.price = none ∨ r.price = some "") ∨ r.url = none ∨ r.url = some "") :
    (process_row r).fetchInvoked = false ∧
    (process_row r).row = r ∧
    (process_row r).saved = false := by
  unfold process_row
  by_cases hu : effectiveUrl r = ""
  · rw [if_pos hu]
    exact ⟨rfl, rfl, rfl⟩
  · rw [if_neg hu]
    have hp : ¬(r.price = none ∨ r.price = some "") := by
      rcases h with h | h | h
      · exact h
      · exact absurd (by simp [effectiveUrl, h]) hu
      · exact absurd (by simp [effectiveUrl, h]) hu
    rw [not_or] at hp
    have hcond : (!(decide (r.price = none) || decide (r.price = some ""))) = true := by
      simp [hp.1, hp.2]
    rw [if_pos hcond]
    exact ⟨rfl, rfl, rfl⟩

/-- Witness for C7: an already-priced row and a URL-less row are both left
untouched with no fetch. -/
theorem process_row_skips_priced_and_urlless_witness :
    ((process_row ⟨some "3", some "dolo 650mg", some "https://x", some "33.0", .timeout⟩).fetchInvoked = false ∧
     (process_row ⟨some "3", some "dolo 650mg", some "https://x", some "33.0", .timeout⟩).row =
       ⟨some "3", some "dolo 650mg", some "https://x", some "33.0", .timeout⟩ ∧
     (process_row ⟨some "3", some "dolo 650mg", some "https://x", some "33.0", .timeout⟩).saved = false) ∧
    ((process_row ⟨some "4", some "crocin", none, none, .timeout⟩).fetchInvoked = false ∧
     (process_row ⟨some "4", some "crocin", none, none, .timeout⟩).row =
       ⟨some "4", some "crocin", none, none, .timeout⟩ ∧
     (process_row ⟨some "4", some "crocin", none, none, .timeout⟩).saved = false) :=
  ⟨process_row_skips_priced_and_urlless _ (Or.inl (by decide)),
   process_row_skips_priced_and_urlless _ (Or.inr (Or.inl rfl))⟩

/-- C8: when a row's fetch attempt fails — timeout, subprocess error, or
output that does not validate as a non-negative decimal — the row's cells
are left unchanged, no save happens, a failure reason is recorded, and the
batch goes on to the remaining rows. -/
theorem process_row_failure_keeps_row (r : XRow) (rs : List XRow)
    (hurl : effectiveUrl r ≠ "")
    (hprice : r.price = none ∨ r.price = some "")
    (hnum : r.num ≠ none)
    (hfail : r.fetch = .timeout ∨ (∃ m, r.fetch = .err m) ∨
      (∃ o e, r.fetch = .output o e ∧ validPrice (pyStrip o) = false)) :
    (process_row r).row = r ∧
    (process_row r).saved = false ∧
    (process_row r).failure ≠ none ∧
    run_batch (r :: rs) = process_row r :: run_batch rs := by
  have hbatch : run_batch (r :: rs) = process_row r :: run_batch rs := by
    rw [run_batch, if_neg hnum]
  have hcond : ¬((!(decide (r.price = none) || decide (r.price = some ""))) = true) := by
    rcases hprice with h | h <;> simp [h]
  have hmain : (process_row r).row = r ∧ (process_row r).saved = false ∧
      (process_row r).failure ≠ none := by
    unfold process_row
    rw [if_neg hurl, if_neg hcond]
    rcases hfail with h | ⟨m, h⟩ | ⟨o, e, h, hv⟩ <;> rw [h]
    · exact ⟨rfl, rfl, by simp⟩
    · exact ⟨rfl, rfl, by simp⟩
    · refine ⟨?_, ?_, ?_⟩ <;> dsimp only <;> rw [if_neg (by simp [hv])] <;> simp
  exact ⟨hmain.1, hmain.2.1, hmain.2.2, hbatch⟩

/-- Witness for C8: a row whose fetch times out keeps its empty price cell,
records the timeout, and the batch continues with the following row. -/
theorem process_row_failure_keeps_row_witness :
    (process_row ⟨some "1", some "dolo", some "https://x", none, .timeout⟩).row =
      ⟨some "1", some "dolo", some "https://x", none, .timeout⟩ ∧
    (process_row ⟨some "1", some "dolo", some "https://x", none, .timeout⟩).saved = false ∧
    (process_row ⟨some "1", some "dolo", some "https://x", none, .timeout⟩).failure ≠ none ∧
    run_batch (⟨some "1", some "dolo", some "https://x", none, .timeout⟩ ::
        [⟨some "2", some "crocin", some "https://y", none, .err "boom"⟩]) =
      process_row ⟨some "1", some "dolo", some "https://x", none, .timeout⟩ ::
        run_batch [⟨some "2", some "crocin", some "https://y", none, .err "boom"⟩] :=
  process_row_failure_keeps_row _ _ (by decide) (Or.inl rfl) (by decide)
    (Or.inl rfl)

/-- C10: the row loop stops at the first row whose number cell is empty;
every row after it is never examined, fetched, or counted — the batch result
is exactly the processed prefix and is independent of the tail. -/
theorem run_batch_stops_at_blank_number (pre : List XRow) (br : XRow)
    (post : List XRow) (hpre : ∀ r ∈ pre, r.num ≠ none) (hbr : br.num = none) :
    run_batch (pre ++ br :: post) = pre.map process_row := by
  induction pre with
  | nil =>
    simp only [List.nil_append, List.map_nil]
    unfold run_batch
    rw [if_pos hbr]
  | cons r rs ih =>
    have hr : r.num ≠ none := hpre r (by simp)
    simp only [List.cons_append, List.map_cons]
    unfold run_batch
    rw [if_neg hr, ih (fun x hx => hpre x (by simp [hx]))]

/-- Witness for C10: a batch whose third row has a blank number cell
processes only the first two rows, even though the row after the blank one
has a name, a URL and an empty price cell. -/
theorem run_batch_stops_at_blank_number_witness :
    run_batch
      [⟨some "1", some "a", none, none, .timeout⟩,
       ⟨some "2", some "b", none, none, .timeout⟩,
       ⟨none, none, none, none, .timeout⟩,
       ⟨some "4", some "d", some "https://x", none, .timeout⟩] =
      [process_row ⟨some "1", some "a", none, none, .timeout⟩,
       process_row ⟨some "2", some "b", none, none, .timeout⟩] := by
  have h := run_batch_stops_at_blank_number
    [⟨some "1", some "a", none, none, .timeout⟩,
     ⟨some "2", some "b", none, none, .timeout⟩]
    ⟨none, none, none, none, .timeout⟩
    [⟨some "4", some "d", some "https://x", none, .timeout⟩]
    (by intro r hr; fin_cases hr <;> simp)
    rfl
  exact h


/-- The resolver's unit loop is the first-match search over the priority
list. -/
theorem findUnit_eq_find (med : String) (R : List String) :
    ∀ l, findUnit med R l = l.find? (fun u => R.contains (med ++ u)) := by
  intro l
  induction l with
  | nil => rfl
  | cons u us ih =>
    unfold findUnit
    rw [List.find?_cons]
    cases h : R.contains (med ++ u) with
    | true => simp [h]
    | false => simp [h, ih]

/-- C3: for a canonical name (no newline can occur in one) that ends in a
digit, the resolver returns `n ++ u` for the first unit `u` of the priority
order `["mg", "ml", "mcg", "gm", "iu"]` with `n ++ u` in the reference set,
and `n` unchanged when there is none; a name not ending in a digit is
returned unchanged.  In particular `resolve("abc500", {"abc500mg"}) =
"abc500mg"`, `resolve("abc500", {}) = "abc500"` (also through
`full_normalize`), and with both `"x1ml"` and `"x1mg"` present the earlier
unit `mg` wins. -/
theorem resolver_first_unit (n : String) (R : List String)
    (hnl : n.data.contains '\n' = false) :
    (∀ c, n.data.getLast? = some c → c.isDigit = true →
       mappingValue n R =
         (match UNITS.find? (fun u => R.contains (n ++ u)) with
          | some u => n ++ u
          | none => n)) ∧
    ((n.data.getLast?.map Char.isDigit) ≠ some true → mappingValue n R = n) ∧
    mappingValue "abc500" ["abc500mg"] = "abc500mg" ∧
    mappingValue "abc500" [] = "abc500" ∧
    full_normalize "abc500" ["abc500mg"] = "abc500mg" ∧
    full_normalize "abc500" [] = "abc500" ∧
    mappingValue "x1" ["x1ml", "x1mg"] = "x1mg" := by
  refine ⟨?_, ?_, by decide, by decide, by decide, by decide, by decide⟩
  · intro c hc hdig
    have hbe : bareEnd n.data = true := by
      unfold bareEnd
      cases hrev : n.data.reverse with
      | nil =>
        rw [← List.head?_reverse, hrev] at hc
        exact absurd hc (by simp)
      | cons c0 t =>
        rw [← List.head?_reverse, hrev] at hc
        injection hc with hc
        subst hc
        have hnotin : '\n' ∉ n.data := by simpa using hnl
        simp [hdig, hnotin]
    have hbare : bareMatch n = true := by
      unfold bareMatch
      rw [hbe]
      simp
    unfold mappingValue
    rw [hbare, if_pos rfl, findUnit_eq_find]
  · intro hnd
    have hbare : bareMatch n = false := by
      unfold bareMatch bareEnd
      cases hrev : n.data.reverse with
      | nil => rfl
      | cons c0 t =>
        have hlast : n.data.getLast? = some c0 := by
          rw [← List.head?_reverse, hrev]
          rfl
        have hd0 : c0.isDigit = false := by
          rw [hlast] at hnd
          cases h : c0.isDigit with
          | true => exact absurd (by simp [h]) hnd
          | false => rfl
        have hc0mem : c0 ∈ n.data := by
          rw [← List.mem_reverse, hrev]
          exact List.mem_cons_self _ _
        have hnotin : '\n' ∉ n.data := by simpa using hnl
        have hc0nl : c0 ≠ '\n' := fun h => hnotin (h ▸ hc0mem)
        simp [hd0, hc0nl]
    unfold mappingValue
    rw [hbare]
    simp

/-- Witness for C3: the theorem applied at `n = "abc500"`,
`R = ["abc500mg"]`, whose last character `'0'` is a digit. -/
theorem resolver_first_unit_witness :
    ("abc500".data.contains '\n' = false) ∧
    ("abc500".data.getLast? = some '0') ∧
    mappingValue "abc500" ["abc500mg"] = "abc500mg" :=
  ⟨by decide, by decide,
   (resolver_first_unit "abc500" ["abc500mg"] (by decide)).2.2.1⟩


/-! ## Canonicalizer lemmas -/

theorem toNat_ofNat_valid (n : Nat) (h : n.isValidChar) :
    (Char.ofNat n).toNat = n := by
  unfold Char.ofNat
  rw [dif_pos h]
  rfl

/-- ASCII case folding is idempotent. -/
theorem toLower_idem (c : Char) : c.toLower.toLower = c.toLower := by
  simp only [Char.toLower]
  by_cases h : c.toNat ≥ 65 ∧ c.toNat ≤ 90
  · rw [if_pos h]
    have hv : (c.toNat + 32).isValidChar := by
      constructor
      omega
    rw [toNat_ofNat_valid _ hv]
    rw [if_neg (by omega)]
  · rw [if_neg h, if_neg h]

theorem dropWhile_eq_self_of_head (p : Char → Bool) (l : List Char)
    (h : ∀ c, l.head? = some c → p c = false) : l.dropWhile p = l := by
  cases l with
  | nil => rfl
  | cons c t =>
    rw [List.dropWhile_cons, if_neg]
    rw [h c rfl]
    simp

theorem head_dropWhile_false (p : Char → Bool) :
    ∀ l : List Char, ∀ c, (l.dropWhile p).head? = some c → p c = false := by
  intro l
  induction l with
  | nil => intro c h; exact absurd h (by simp)
  | cons x t ih =>
    intro c h
    rw [List.dropWhile_cons] at h
    by_cases hp : p x
    · rw [if_pos hp] at h
      exact ih c h
    · rw [if_neg hp] at h
      injection h with h
      subst h
      simpa using hp

theorem getLast_dropWhile (p : Char → Bool) :
    ∀ l : List Char, l.dropWhile p ≠ [] →
      (l.dropWhile p).getLast? = l.getLast? := by
  intro l
  induction l with
  | nil => intro h; exact absurd rfl h
  | cons x t ih =>
    intro h
    rw [List.dropWhile_cons] at h ⊢
    by_cases hp : p x
    · rw [if_pos hp] at h ⊢
      have ht : t ≠ [] := by
        intro he
        rw [he] at h
        exact h rfl
      rw [ih h]
      cases t with
      | nil => exact absurd rfl ht
      | cons y ys => rw [List.getLast?_cons_cons]
    · rw [if_neg hp]

theorem stripEnd_eq_self (p : Char → Bool) (l : List Char)
    (h : ∀ c, l.getLast? = some c → p c = false) : stripEnd p l = l := by
  unfold stripEnd
  rw [dropWhile_eq_self_of_head]
  · exact List.reverse_reverse l
  · intro c hc
    rw [List.head?_reverse] at hc
    exact h c hc

/-- Edge characterisation of one `strip` pass: its head and last both fail
`p` (when present). -/
theorem stripBoth_head (p : Char → Bool) (cs : List Char) :
    ∀ c, (stripBoth p cs).head? = some c → p c = false := by
  intro c h
  unfold stripBoth stripEnd at h
  rw [List.head?_reverse] at h
  have hne : (cs.dropWhile p).reverse.dropWhile p ≠ [] := by
    intro he
    rw [he] at h
    exact absurd h (by simp)
  rw [getLast_dropWhile p _ hne] at h
  rw [List.getLast?_reverse] at h
  exact head_dropWhile_false p cs c h

theorem stripBoth_last (p : Char → Bool) (cs : List Char) :
    ∀ c, (stripBoth p cs).getLast? = some c → p c = false := by
  intro c h
  unfold stripBoth stripEnd at h
  rw [List.getLast?_reverse] at h
  exact head_dropWhile_false p _ c h

/-- `str.strip(chars)` is idempotent. -/
theorem stripBoth_idem (p : Char → Bool) (cs : List Char) :
    stripBoth p (stripBoth p cs) = stripBoth p cs := by
  have h1 : (stripBoth p cs).dropWhile p = stripBoth p cs :=
    dropWhile_eq_self_of_head p _ (stripBoth_head p cs)
  show stripEnd p ((stripBoth p cs).dropWhile p) = stripBoth p cs
  rw [h1]
  exact stripEnd_eq_self p _ (stripBoth_last p cs)


theorem mem_dropWhile {c : Char} (p : Char → Bool) :
    ∀ l : List Char, c ∈ l.dropWhile p → c ∈ l := by
  intro l
  induction l with
  | nil => intro h; simpa using h
  | cons x t ih =>
    intro h
    rw [List.dropWhile_cons] at h
    by_cases hp : p x
    · rw [if_pos hp] at h
      exact List.mem_cons_of_mem x (ih h)
    · rw [if_neg hp] at h
      exact h

theorem mem_stripEnd {c : Char} (p : Char → Bool) (l : List Char)
    (h : c ∈ stripEnd p l) : c ∈ l := by
  unfold stripEnd at h
  rw [List.mem_reverse] at h
  have := mem_dropWhile p _ h
  rwa [List.mem_reverse] at this

theorem mem_stripBoth {c : Char} (p : Char → Bool) (l : List Char)
    (h : c ∈ stripBoth p l) : c ∈ l :=
  mem_dropWhile p l (mem_stripEnd p _ h)

theorem mem_collapseWS {c : Char} :
    ∀ l : List Char, c ∈ collapseWS l → c ∈ l ∨ c = ' ' := by
  intro l
  induction l with
  | nil => intro h; simp [collapseWS] at h
  | cons x t ih =>
    intro h
    unfold collapseWS at h
    by_cases hx : isPySpace x
    · rw [if_pos hx] at h
      cases t with
      | nil =>
        simp only [List.mem_singleton] at h
        exact Or.inr h
      | cons d t2 =>
        dsimp only at h
        by_cases hd : isPySpace d
        · rw [if_pos hd] at h
          rcases ih h with h1 | h1
          · exact Or.inl (List.mem_cons_of_mem x h1)
          · exact Or.inr h1
        · rw [if_neg hd] at h
          rcases List.mem_cons.mp h with h1 | h1
          · exact Or.inr h1
          · rcases ih h1 with h2 | h2
            · exact Or.inl (List.mem_cons_of_mem x h2)
            · exact Or.inr h2
    · rw [if_neg hx] at h
      rcases List.mem_cons.mp h with h1 | h1
      · exact Or.inl (h1 ▸ List.mem_cons_self x t)
      · rcases ih h1 with h2 | h2
        · exact Or.inl (List.mem_cons_of_mem x h2)
        · exact Or.inr h2

/-- The characters an alternation match can emit. -/
def unitChars : List Char := ['m', 'g', 'c', 'l', 'i', 'u']

theorem matchAltAux_sound {cs a r} :
    ∀ alts : List (List Char), matchAltAux alts cs = some (a, r) →
      a ∈ alts ∧ r = cs.drop a.length := by
  intro alts
  induction alts with
  | nil => intro h; exact absurd h (by simp [matchAltAux])
  | cons alt rest ih =>
    intro h
    unfold matchAltAux at h
    cases hcase : tryAlt alt cs with
    | some res =>
      rw [hcase] at h
      injection h with h
      subst h
      obtain ⟨ha, hr, _⟩ := tryAlt_some hcase
      subst ha
      exact ⟨List.mem_cons_self _ _, hr⟩
    | none =>
      rw [hcase] at h
      have := ih h
      exact ⟨List.mem_cons_of_mem _ this.1, this.2⟩

theorem mem_unitSubGo {c : Char} :
    ∀ fuel : Nat, ∀ cs : List Char, c ∈ unitSubGo fuel cs →
      c ∈ cs ∨ c ∈ unitChars := by
  intro fuel
  induction fuel with
  | zero =>
    intro cs h
    cases cs with
    | nil => simp [unitSubGo] at h
    | cons x t => exact Or.inl h
  | succ f ih =>
    intro cs h
    cases cs with
    | nil => simp [unitSubGo] at h
    | cons x t =>
      unfold unitSubGo at h
      cases hm : matchAlt ((x :: t).drop ((x :: t).takeWhile isPySpace).length) with
      | some ar =>
        rw [hm] at h
        rcases List.mem_append.mp h with h1 | h1
        · -- the emitted unit: one of the six alternatives
          obtain ⟨hmem, _⟩ := matchAltAux_sound unitAlts hm
          right
          have hall : ∀ alt ∈ unitAlts, ∀ d ∈ alt, d ∈ unitChars := by decide
          exact hall ar.1 hmem c h1
        · rcases ih ar.2 h1 with h2 | h2
          · left
            obtain ⟨_, hr⟩ := matchAltAux_sound unitAlts hm
            rw [hr] at h2
            have := List.mem_of_mem_drop h2
            exact List.mem_of_mem_drop this
          · exact Or.inr h2
      | none =>
        rw [hm] at h
        rcases List.mem_cons.mp h with h1 | h1
        · exact Or.inl (h1 ▸ List.mem_cons_self x t)
        · rcases ih t h1 with h2 | h2
          · exact Or.inl (List.mem_cons_of_mem x h2)
          · exact Or.inr h2

theorem mem_unitSub {c : Char} (cs : List Char) (h : c ∈ unitSub cs) :
    c ∈ cs ∨ c ∈ unitChars :=
  mem_unitSubGo cs.length cs h

theorem lowerL_fix : ∀ cs : List Char, (∀ c ∈ cs, c.toLower = c) →
    lowerL cs = cs := by
  intro cs
  induction cs with
  | nil => intro _; rfl
  | cons x t ih =>
    intro h
    unfold lowerL at ih ⊢
    simp only [List.map_cons]
    rw [h x (List.mem_cons_self x t), ih (fun c hc => h c (List.mem_cons_of_mem x hc))]


/-- Every character of a `normalize_units` output is case-fold fixed. -/
theorem normalize_units_chars_lower (x : String) :
    ∀ c ∈ (normalize_units x).data, c.toLower = c := by
  unfold normalize_units stripWS
  dsimp only
  intro c hc
  have h1 := mem_stripBoth isPySpace _ hc
  rcases mem_unitSub _ h1 with h2 | h2
  · rcases mem_collapseWS _ h2 with h3 | h3
    · obtain ⟨d, _, hd⟩ := List.mem_map.mp h3
      rw [← hd]
      exact toLower_idem d
    · subst h3
      decide
  · fin_cases h2 <;> decide

/-- Every character of a `normalize` output is case-fold fixed. -/
theorem normalize_chars_lower (x : String) :
    ∀ c ∈ (normalize x).data, c.toLower = c := by
  unfold normalize stripWS
  dsimp only
  intro c hc
  have h1 := mem_stripBoth isPySpace _ hc
  rcases mem_unitSub _ h1 with h2 | h2
  · have h3 := mem_stripBoth (· = backtickChar) _ (mem_stripBoth (· = '.') _ h2)
    rcases mem_collapseWS _ h3 with h4 | h4
    · obtain ⟨d, _, hd⟩ := List.mem_map.mp h4
      rw [← hd]
      exact toLower_idem d
    · subst h4
      decide
  · fin_cases h2 <;> decide

/-- A `normalize_units` output carries no surrounding whitespace. -/
theorem normalize_units_strip_fix (x : String) :
    stripWS (normalize_units x).data = (normalize_units x).data := by
  unfold normalize_units stripWS
  dsimp only
  exact stripBoth_idem isPySpace _

/-- A `normalize` output carries no surrounding whitespace. -/
theorem normalize_strip_fix (x : String) :
    stripWS (normalize x).data = (normalize x).data := by
  unfold normalize stripWS
  dsimp only
  exact stripBoth_idem isPySpace _

/-- C5 counterexample: canonicalization is not idempotent.  One pass over
`"a m g"` merges only the space before `g` (producing `"a mg"`); the second
pass then sees the fresh whitespace-preceded `mg` token and merges again
(producing `"amg"`).  Both canonicalizers fail on this input. -/
theorem canonicalize_not_idempotent :
    normalize_units (normalize_units "a m g") ≠ normalize_units "a m g" ∧
    normalize (normalize "a m g") ≠ normalize "a m g" := by
  constructor <;> decide

/-- C5 amended: canonicalization is idempotent exactly on the inputs whose
canonical form is itself a fixed point of the whitespace-collapse and
unit-re-spacing passes (and, for `normalize`, of the backtick and period
trims); the case-folding and whitespace-strip passes are always fixed on a
canonical form, which this theorem proves outright. -/
theorem canonicalize_idem_of_fixed (x : String)
    (hcol : collapseWS (normalize_units x).data = (normalize_units x).data)
    (hsub : unitSub (normalize_units x).data = (normalize_units x).data)
    (hcol2 : collapseWS (normalize x).data = (normalize x).data)
    (htick : stripBoth (· = backtickChar) (normalize x).data = (normalize x).data)
    (hdot : stripBoth (· = '.') (normalize x).data = (normalize x).data)
    (hsub2 : unitSub (normalize x).data = (normalize x).data) :
    normalize_units (normalize_units x) = normalize_units x ∧
    normalize (normalize x) = normalize x := by
  constructor
  · show (⟨stripWS (unitSub (collapseWS (lowerL (stripWS (normalize_units x).data))))⟩ : String)
      = normalize_units x
    rw [normalize_units_strip_fix, lowerL_fix _ (normalize_units_chars_lower x),
      hcol, hsub, normalize_units_strip_fix]
  · show (⟨stripWS (unitSub (stripBoth (· = '.') (stripBoth (· = backtickChar)
        (collapseWS (lowerL (stripWS (normalize x).data))))))⟩ : String) = normalize x
    rw [normalize_strip_fix, lowerL_fix _ (normalize_chars_lower x),
      hcol2, htick, hdot, hsub2, normalize_strip_fix]

/-- Witness for C5 amended: `"Paracetamol  500 MG"` canonicalizes to
`"paracetamol 500mg"`, which is a fixed point of every pass, so a second
canonicalization changes nothing. -/
theorem canonicalize_idem_of_fixed_witness :
    collapseWS (normalize_units "Paracetamol  500 MG").data
      = (normalize_units "Paracetamol  500 MG").data ∧
    unitSub (normalize_units "Paracetamol  500 MG").data
      = (normalize_units "Paracetamol  500 MG").data ∧
    normalize_units (normalize_units "Paracetamol  500 MG")
      = normalize_units "Paracetamol  500 MG" ∧
    normalize (normalize "Paracetamol  500 MG") = normalize "Paracetamol  500 MG" := by
  have h := canonicalize_idem_of_fixed "Paracetamol  500 MG"
    (by decide) (by decide) (by decide) (by decide) (by decide) (by decide)
  exact ⟨by decide, by decide, h.1, h.2⟩

/-- C6 counterexample: under `normalize_units` of
`scripts/03_normalize_advanced.py` — which trims no periods — the quoted
pair maps to different canonical names (`"paracetamol 500mg."` versus
`"paracetamol 500mg"`). -/
theorem canonicalize_delimiter_counterexample :
    normalize_units "Paracetamol   500 MG." ≠ normalize_units "paracetamol 500mg" := by
  decide

/-- C6 amended: the quoted pair maps to one canonical name under `normalize`
of `scripts/04_final_analysis.py` (which trims backticks and trailing
periods), and under both canonicalizers any two raw names that agree after
whitespace-trim and case-fold — i.e. differ only in letter case and
surrounding whitespace — map to the same canonical name; `normalize_units`
alone does not honour the trailing-period part of the claim. -/
theorem canonicalize_case_space_invariance :
    (normalize "Paracetamol   500 MG." = normalize "paracetamol 500mg") ∧
    (∀ s t : String, lowerL (stripWS s.data) = lowerL (stripWS t.data) →
      normalize s = normalize t ∧ normalize_units s = normalize_units t) := by
  refine ⟨by decide, ?_⟩
  intro s t h
  constructor
  · unfold normalize
    rw [h]
  · unfold normalize_units
    rw [h]

/-- Witness for C6 amended: `"  Dolo 650"` and `"dolo 650 "` differ only in
case and surrounding whitespace and canonicalize identically. -/
theorem canonicalize_case_space_invariance_witness :
    lowerL (stripWS "  Dolo 650".data) = lowerL (stripWS "dolo 650 ".data) ∧
    normalize "  Dolo 650" = normalize "dolo 650 " ∧
    normalize_units "  Dolo 650" = normalize_units "dolo 650 " := by
  have h := canonicalize_case_space_invariance.2 "  Dolo 650" "dolo 650 " (by decide)
  exact ⟨by decide, h.1, h.2⟩

end MedCost
